import Mathlib

/-!
Verification of the `tdump` debugger command handler (`src/tdump.py`)
against its specification.

The handler is embedded shallowly as a trace-producing function: one
invocation yields the list of observable actions it performs against the
host debugger's scripting API (sub-command submissions to the command
interpreter, writes to the result sink, the async-mode switch and the
process resume).  The host's behavior is a parameter: an environment
carrying the execution context's target, the selected target at resume
time, and the interpreter's `HandleCommand` behavior as a function
mutating the passed return object.
-/

/-- Return status codes of the host debugger (the `lldb.ReturnStatus`
enumeration); the handler only ever uses `successContinuingNoResult`. -/
inductive ReturnStatus where
  | invalid
  | successFinishNoResult
  | successFinishResult
  | successContinuingNoResult
  | successContinuingResult
  | started
  | failed
  | quit
deriving DecidableEq, Repr

/-- State of an `SBCommandReturnObject` as consulted by the handler: only
its error text (`res.GetError()`), the empty string meaning no error
(Python truthiness of the error string). A freshly constructed object has
an empty error. -/
structure SBCommandReturnObject where
  error : String
deriving DecidableEq, Repr

/-- A debug target as seen through the scripting API: `name` is its
textual form (what `"{}".format(target)` produces), `process` identifies
the process attached to it (`target.GetProcess()`). -/
structure Target where
  name : String
  process : String
deriving DecidableEq, Repr

/-- The host-debugger environment of one invocation: the execution
context's target (`ctx.target`), the selected target at resume time
(`debugger.GetSelectedTarget()`), and the interpreter behavior
(`interpreter.HandleCommand(command, res)` as a function from the command
string and the prior state of the passed return object to its new
state). -/
structure Env where
  ctxTarget : Target
  selectedTarget : Target
  handleCmd : String → SBCommandReturnObject → SBCommandReturnObject

/-- Observable actions the handler performs against the host API.
`submit cmd res` records a call `interpreter.HandleCommand(cmd, res)`
with the state `res` the shared return object holds when passed in. -/
inductive Event where
  | submit (cmd : String) (res : SBCommandReturnObject)
  | resultSetError (msg : String)
  | resultSetStatus (s : ReturnStatus)
  | debuggerSetAsync (b : Bool)
  | processContinue (p : String)
deriving DecidableEq, Repr

/-- The four command strings built by `handle_tdump_command`, in source
order, from the textual form of `ctx.target` and the raw user
expression (string formatting, no escaping). -/
def commands (ctxTarget expression : String) : List String :=
  ["e -l swift -- import " ++ ctxTarget,
   "e -l swift -- import UIKit",
   "e -l swift -- TreeDumpDebugger.present(" ++ expression ++ ")",
   "e -l swift -- CATransaction.flush()"]

/-- The `for command in commands` loop of the handler, followed by the
success tail.  Each iteration submits the command together with the
current state of the single shared return object, then checks
`res.GetError()`: on a non-empty error it writes that error to the result
sink (`result.SetError`) and returns; after the last command it sets the
success status, switches the debugger to async mode and continues the
process of the selected target queried at that point. -/
def runCommands (env : Env) : List String → SBCommandReturnObject → List Event
  | [], _ =>
    [Event.resultSetStatus ReturnStatus.successContinuingNoResult,
     Event.debuggerSetAsync true,
     Event.processContinue env.selectedTarget.process]
  | c :: cs, res =>
    Event.submit c res ::
      (if (env.handleCmd c res).error ≠ "" then
        [Event.resultSetError (env.handleCmd c res).error]
      else
        runCommands env cs (env.handleCmd c res))

/-- Shallow embedding of `handle_tdump_command` (src/tdump.py): the trace
of host-API actions of one invocation, starting from a freshly allocated
`SBCommandReturnObject` (empty error). -/
def handle_tdump_command (env : Env) (expression : String) : List Event :=
  runCommands env (commands env.ctxTarget.name expression) ⟨""⟩

/-- The command strings submitted to the interpreter, in order. -/
def submittedCmds (tr : List Event) : List String :=
  tr.filterMap fun ev =>
    match ev with
    | Event.submit c _ => some c
    | _ => none

/-- The submissions together with the state of the shared return object
passed at each of them, in order. -/
def submittedWithRes (tr : List Event) : List (String × SBCommandReturnObject) :=
  tr.filterMap fun ev =>
    match ev with
    | Event.submit c r => some (c, r)
    | _ => none

/-- The error texts written to the result sink (`result.SetError`). -/
def sinkErrors (tr : List Event) : List String :=
  tr.filterMap fun ev =>
    match ev with
    | Event.resultSetError m => some m
    | _ => none

/-- The statuses written to the result sink (`result.SetStatus`). -/
def sinkStatuses (tr : List Event) : List ReturnStatus :=
  tr.filterMap fun ev =>
    match ev with
    | Event.resultSetStatus s => some s
    | _ => none

/-- The arguments of the calls to `debugger.SetAsync`. -/
def asyncCalls (tr : List Event) : List Bool :=
  tr.filterMap fun ev =>
    match ev with
    | Event.debuggerSetAsync b => some b
    | _ => none

/-- The processes on which `Continue()` is called. -/
def continueCalls (tr : List Event) : List String :=
  tr.filterMap fun ev =>
    match ev with
    | Event.processContinue p => some p
    | _ => none

/-- The state of the single shared return object after the first `i`
submissions: `HandleCommand` folded over the first `i` commands starting
from the freshly allocated object, never reset in between. -/
def resAfter (env : Env) (cmds : List String) (i : Nat) : SBCommandReturnObject :=
  (cmds.take i).foldl (fun r c => env.handleCmd c r) ⟨""⟩

/-- Pair each command of a list with the state a single shared return
object holds when that command is submitted, threading `HandleCommand`
through without resets. -/
def threadRes (env : Env) : List String → SBCommandReturnObject → List (String × SBCommandReturnObject)
  | [], _ => []
  | c :: cs, res => (c, res) :: threadRes env cs (env.handleCmd c res)

/-- A mocked host on which every sub-command succeeds: `HandleCommand`
leaves the return object untouched (its error stays empty). -/
def envOk : Env :=
  ⟨⟨"MyApp", "proc-main"⟩, ⟨"MyApp", "proc-main"⟩, fun _ r => r⟩

/-- A mocked host on which every sub-command fails with a fixed error. -/
def envFailImport : Env :=
  ⟨⟨"MyApp", "proc-main"⟩, ⟨"MyApp", "proc-main"⟩, fun _ _ => ⟨"error: fail"⟩⟩

/-- A mocked host on which exactly the UIKit import fails. -/
def envFailUIKit : Env :=
  ⟨⟨"MyApp", "proc-main"⟩, ⟨"MyApp", "proc-main"⟩,
   fun c r => if c = "e -l swift -- import UIKit" then ⟨"error: no module"⟩ else r⟩

/-- A mocked all-success host whose selected target at resume time
differs from the execution context's target. -/
def envSwitched : Env :=
  ⟨⟨"MyApp", "proc-main"⟩, ⟨"Other", "proc-other"⟩, fun _ r => r⟩

/-! ### Helper lemmas -/

theorem submittedCmds_runCommands (env : Env) (cmds : List String)
    (res : SBCommandReturnObject) :
    ∃ n, n ≤ cmds.length ∧
      submittedCmds (runCommands env cmds res) = cmds.take n := by
  induction cmds generalizing res with
  | nil =>
    exact ⟨0, Nat.le_refl 0, by simp [runCommands, submittedCmds]⟩
  | cons c cs ih =>
    by_cases h : (env.handleCmd c res).error = ""
    · obtain ⟨n, hn, hs⟩ := ih (env.handleCmd c res)
      refine ⟨n + 1, by simpa using hn, ?_⟩
      simp only [submittedCmds, runCommands, h, ne_eq, not_true_eq_false,
        if_false, List.filterMap_cons, List.take_succ_cons] at hs ⊢
      exact congrArg (c :: ·) hs
    · refine ⟨1, by simp, ?_⟩
      simp [runCommands, h, submittedCmds]

theorem threadRes_keys (env : Env) (l : List String) (res : SBCommandReturnObject) :
    (threadRes env l res).map Prod.fst = l := by
  induction l generalizing res with
  | nil => simp [threadRes]
  | cons c cs ih => simp [threadRes, ih]

theorem submittedCmds_map_submit (ts : List (String × SBCommandReturnObject)) :
    submittedCmds (ts.map fun p => Event.submit p.1 p.2) = ts.map Prod.fst := by
  induction ts with
  | nil => rfl
  | cons t ts ih => simp [submittedCmds] at ih ⊢; exact ih

theorem submittedWithRes_map_submit (ts : List (String × SBCommandReturnObject)) :
    submittedWithRes (ts.map fun p => Event.submit p.1 p.2) = ts := by
  induction ts with
  | nil => rfl
  | cons t ts ih => simp [submittedWithRes] at ih ⊢; exact ih

theorem sinkErrors_map_submit (ts : List (String × SBCommandReturnObject)) :
    sinkErrors (ts.map fun p => Event.submit p.1 p.2) = [] := by
  induction ts with
  | nil => rfl
  | cons t ts ih => simp [sinkErrors, ih]

theorem sinkStatuses_map_submit (ts : List (String × SBCommandReturnObject)) :
    sinkStatuses (ts.map fun p => Event.submit p.1 p.2) = [] := by
  induction ts with
  | nil => rfl
  | cons t ts ih => simp [sinkStatuses, ih]

theorem asyncCalls_map_submit (ts : List (String × SBCommandReturnObject)) :
    asyncCalls (ts.map fun p => Event.submit p.1 p.2) = [] := by
  induction ts with
  | nil => rfl
  | cons t ts ih => simp [asyncCalls, ih]

theorem continueCalls_map_submit (ts : List (String × SBCommandReturnObject)) :
    continueCalls (ts.map fun p => Event.submit p.1 p.2) = [] := by
  induction ts with
  | nil => rfl
  | cons t ts ih => simp [continueCalls, ih]

theorem runCommands_all_ok (env : Env) (cmds : List String)
    (res : SBCommandReturnObject)
    (h : ∀ i, i < cmds.length →
      ((cmds.take (i+1)).foldl (fun r c => env.handleCmd c r) res).error = "") :
    runCommands env cmds res =
      (threadRes env cmds res).map (fun p => Event.submit p.1 p.2) ++
      [Event.resultSetStatus ReturnStatus.successContinuingNoResult,
       Event.debuggerSetAsync true,
       Event.processContinue env.selectedTarget.process] := by
  induction cmds generalizing res with
  | nil => simp [runCommands, threadRes]
  | cons c cs ih =>
    have h0 : (env.handleCmd c res).error = "" := by
      simpa using h 0 (by simp)
    simp only [runCommands, h0, ne_eq, not_true_eq_false, if_false, threadRes,
      List.map_cons, List.cons_append]
    refine congrArg (Event.submit c res :: ·) ?_
    refine ih (env.handleCmd c res) ?_
    intro i hi
    simpa using h (i+1) (by simpa using Nat.succ_lt_succ hi)

theorem runCommands_first_err (env : Env) (cmds : List String)
    (res : SBCommandReturnObject) (k : Nat)
    (hk : k < cmds.length)
    (hprev : ∀ i, i < k →
      ((cmds.take (i+1)).foldl (fun r c => env.handleCmd c r) res).error = "")
    (herr : ((cmds.take (k+1)).foldl (fun r c => env.handleCmd c r) res).error ≠ "") :
    runCommands env cmds res =
      (threadRes env (cmds.take (k+1)) res).map (fun p => Event.submit p.1 p.2) ++
      [Event.resultSetError
        ((cmds.take (k+1)).foldl (fun r c => env.handleCmd c r) res).error] := by
  induction cmds generalizing res k with
  | nil => exact absurd hk (by simp)
  | cons c cs ih =>
    cases k with
    | zero =>
      have h0 : (env.handleCmd c res).error ≠ "" := by simpa using herr
      simp [runCommands, h0, threadRes]
    | succ k =>
      have h0 : (env.handleCmd c res).error = "" := by
        simpa using hprev 0 (Nat.succ_pos k)
      simp only [runCommands, h0, ne_eq, not_true_eq_false, if_false,
        List.take_succ_cons, threadRes, List.map_cons, List.cons_append,
        List.foldl_cons]
      refine congrArg (Event.submit c res :: ·) ?_
      refine ih (env.handleCmd c res) k (by simpa using Nat.lt_of_succ_lt_succ hk) ?_ ?_
      · intro i hi
        simpa using hprev (i+1) (Nat.succ_lt_succ hi)
      · simpa using herr

/-- The sequence of command strings the loop submits, as a function of
the interpreter behavior alone: each command is submitted, and the
sequence stops after the first one whose evaluation leaves a non-empty
error in the threaded return object. -/
def seqCmds (f : String → SBCommandReturnObject → SBCommandReturnObject) :
    List String → SBCommandReturnObject → List String
  | [], _ => []
  | c :: cs, res =>
    c :: (if (f c res).error ≠ "" then [] else seqCmds f cs (f c res))

theorem submittedCmds_runCommands_eq (env : Env) (cmds : List String)
    (res : SBCommandReturnObject) :
    submittedCmds (runCommands env cmds res) = seqCmds env.handleCmd cmds res := by
  induction cmds generalizing res with
  | nil => rfl
  | cons c cs ih =>
    by_cases h : (env.handleCmd c res).error = ""
    · simp only [runCommands, seqCmds, h, ne_eq, not_true_eq_false, if_false,
        submittedCmds, List.filterMap_cons] at ih ⊢
      exact congrArg (c :: ·) (ih (env.handleCmd c res))
    · simp [runCommands, seqCmds, h, submittedCmds]

/-! ### Claims -/

/-- C1: Every invocation submits its sub-commands to the interpreter in
the fixed source order — target-module import first, UIKit import second,
the present call with the user's argument third, the transaction flush
fourth — possibly truncated by an early error, so no sub-command is ever
submitted out of this order. -/
theorem tdump_submission_order (env : Env) (e : String) :
    ∃ n, n ≤ 4 ∧
      submittedCmds (handle_tdump_command env e) =
        (commands env.ctxTarget.name e).take n := by
  obtain ⟨n, hn, hs⟩ :=
    submittedCmds_runCommands env (commands env.ctxTarget.name e) ⟨""⟩
  exact ⟨n, by simpa [commands] using hn, hs⟩

/-- C4 counterexample: with target name "MyApp" and expression
"self.view" on an all-success host, the submitted command strings are not
the bare strings claimed — each one carries the evaluator invocation
"e -l swift -- " in front of the quoted sub-command. -/
theorem tdump_concrete_commands_not_bare :
    submittedCmds (handle_tdump_command envOk "self.view") ≠
      ["import MyApp", "import UIKit",
       "TreeDumpDebugger.present(self.view)", "CATransaction.flush()"] := by
  decide

/-- C4 amended: with target name "MyApp" and expression "self.view" on a
host where all four sub-commands succeed, the four submitted command
strings are exactly the evaluator invocations of import MyApp, import
UIKit, TreeDumpDebugger.present(self.view) and CATransaction.flush(),
each prefixed by "e -l swift -- "; the result sink carries no error and
the process Continue is called exactly once. -/
theorem tdump_concrete_scenario :
    submittedCmds (handle_tdump_command envOk "self.view") =
      ["e -l swift -- import MyApp", "e -l swift -- import UIKit",
       "e -l swift -- TreeDumpDebugger.present(self.view)",
       "e -l swift -- CATransaction.flush()"] ∧
    sinkErrors (handle_tdump_command envOk "self.view") = [] ∧
    continueCalls (handle_tdump_command envOk "self.view") = ["proc-main"] := by
  decide

/-- C5: The user expression is spliced into the third sub-command
exactly as given, with no quoting, escaping or validation; concretely, an
expression containing a quote character yields a third sub-command with
that raw quote embedded in it, and that corrupted string is what gets
submitted. -/
theorem tdump_raw_interpolation (env : Env) (e : String) :
    (commands env.ctxTarget.name e).getD 2 "" =
      "e -l swift -- TreeDumpDebugger.present(" ++ e ++ ")" ∧
    (commands "MyApp" "say(\"hi\")").getD 2 "" =
      "e -l swift -- TreeDumpDebugger.present(say(\"hi\"))" ∧
    '\"' ∈ ((commands "MyApp" "say(\"hi\")").getD 2 "").data ∧
    (submittedCmds (handle_tdump_command envOk "say(\"hi\")")).getD 2 "" =
      "e -l swift -- TreeDumpDebugger.present(say(\"hi\"))" :=
  ⟨rfl, by decide, by decide, by decide⟩

/-- C10 counterexample: two invocations with equal target names and equal
expression strings but different interpreter behavior submit different
command sequences (the all-success host submits four commands, the
always-failing host stops after one), so the submitted sequence is not a
function of target name and expression alone. -/
theorem tdump_not_deterministic_in_name_and_expr :
    envOk.ctxTarget.name = envFailImport.ctxTarget.name ∧
    submittedCmds (handle_tdump_command envOk "self.view") ≠
      submittedCmds (handle_tdump_command envFailImport "self.view") := by
  decide

/-- C10 amended: the submitted command sequence is a deterministic
function of the target name, the expression string and the interpreter
behavior: any two invocations agreeing on those three submit identical
command strings (in particular the selected target and its process do not
influence the submissions). -/
theorem tdump_deterministic_submissions (env1 env2 : Env) (e1 e2 : String)
    (ht : env1.ctxTarget.name = env2.ctxTarget.name) (he : e1 = e2)
    (hi : env1.handleCmd = env2.handleCmd) :
    submittedCmds (handle_tdump_command env1 e1) =
      submittedCmds (handle_tdump_command env2 e2) := by
  subst he
  unfold handle_tdump_command
  rw [submittedCmds_runCommands_eq, submittedCmds_runCommands_eq, hi, ht]

/-- Witness for C10's amended theorem: the all-success host and the same
host with a different selected target agree on target name, expression
and interpreter behavior, and indeed submit identical command strings. -/
theorem tdump_deterministic_submissions_witness :
    envOk.ctxTarget.name = envSwitched.ctxTarget.name ∧
    envOk.handleCmd = envSwitched.handleCmd ∧
    submittedCmds (handle_tdump_command envOk "self.view") =
      submittedCmds (handle_tdump_command envSwitched "self.view") :=
  ⟨rfl, rfl,
   tdump_deterministic_submissions envOk envSwitched "self.view" "self.view" rfl rfl rfl⟩

theorem submittedCmds_append (a b : List Event) :
    submittedCmds (a ++ b) = submittedCmds a ++ submittedCmds b := by
  simp [submittedCmds]

theorem sinkErrors_append (a b : List Event) :
    sinkErrors (a ++ b) = sinkErrors a ++ sinkErrors b := by
  simp [sinkErrors]

theorem sinkStatuses_append (a b : List Event) :
    sinkStatuses (a ++ b) = sinkStatuses a ++ sinkStatuses b := by
  simp [sinkStatuses]

theorem asyncCalls_append (a b : List Event) :
    asyncCalls (a ++ b) = asyncCalls a ++ asyncCalls b := by
  simp [asyncCalls]

theorem continueCalls_append (a b : List Event) :
    continueCalls (a ++ b) = continueCalls a ++ continueCalls b := by
  simp [continueCalls]

/-- C2: If the k-th sub-command evaluation (1 ≤ k ≤ 4, the earlier ones
having succeeded) leaves a non-empty error, then sub-commands k+1..4 are
never submitted, the result sink's error is exactly the error text after
sub-command k, and the debuggee process is never resumed. -/
theorem tdump_error_short_circuit (env : Env) (e : String) (k : Nat)
    (h1 : 1 ≤ k) (h4 : k ≤ 4)
    (hprev : ∀ j, 1 ≤ j → j < k →
      (resAfter env (commands env.ctxTarget.name e) j).error = "")
    (herr : (resAfter env (commands env.ctxTarget.name e) k).error ≠ "") :
    submittedCmds (handle_tdump_command env e) =
      (commands env.ctxTarget.name e).take k ∧
    sinkErrors (handle_tdump_command env e) =
      [(resAfter env (commands env.ctxTarget.name e) k).error] ∧
    continueCalls (handle_tdump_command env e) = [] := by
  obtain ⟨k0, rfl⟩ : ∃ k0, k = k0 + 1 := ⟨k - 1, by omega⟩
  have hlen : (commands env.ctxTarget.name e).length = 4 := rfl
  have hrw := runCommands_first_err env (commands env.ctxTarget.name e) ⟨""⟩ k0
    (by omega) (fun i hi => hprev (i+1) (by omega) (by omega)) herr
  unfold handle_tdump_command
  rw [hrw]
  refine ⟨?_, ?_, ?_⟩
  · rw [submittedCmds_append, submittedCmds_map_submit, threadRes_keys]
    simp [submittedCmds]
  · rw [sinkErrors_append, sinkErrors_map_submit]
    simp only [sinkErrors, List.nil_append, List.filterMap_cons, List.filterMap_nil]
    rfl
  · rw [continueCalls_append, continueCalls_map_submit]
    simp [continueCalls]

/-- Witness for C2: a host failing exactly on the UIKit import (k = 2)
submits only the first two commands, reports that error verbatim and
never resumes the process. -/
theorem tdump_error_short_circuit_witness :
    ((1:Nat) ≤ 2 ∧ (2:Nat) ≤ 4 ∧
     (resAfter envFailUIKit (commands envFailUIKit.ctxTarget.name "self.view") 2).error ≠ "") ∧
    submittedCmds (handle_tdump_command envFailUIKit "self.view") =
      (commands envFailUIKit.ctxTarget.name "self.view").take 2 ∧
    sinkErrors (handle_tdump_command envFailUIKit "self.view") =
      [(resAfter envFailUIKit (commands envFailUIKit.ctxTarget.name "self.view") 2).error] ∧
    continueCalls (handle_tdump_command envFailUIKit "self.view") = [] :=
  ⟨⟨by omega, by omega, by decide⟩,
   tdump_error_short_circuit envFailUIKit "self.view" 2 (by omega) (by omega)
     (by intro j hj1 hj2; interval_cases j; decide) (by decide)⟩

/-- C3: If all four sub-command evaluations succeed, the process is
resumed exactly once, async mode is enabled exactly once (with value
true), and the result sink carries no error and exactly the
success-continuing-no-result status. -/
theorem tdump_success_path (env : Env) (e : String)
    (hok : ∀ j, 1 ≤ j → j ≤ 4 →
      (resAfter env (commands env.ctxTarget.name e) j).error = "") :
    continueCalls (handle_tdump_command env e) = [env.selectedTarget.process] ∧
    asyncCalls (handle_tdump_command env e) = [true] ∧
    sinkErrors (handle_tdump_command env e) = [] ∧
    sinkStatuses (handle_tdump_command env e) =
      [ReturnStatus.successContinuingNoResult] := by
  have hlen : (commands env.ctxTarget.name e).length = 4 := rfl
  have hrw := runCommands_all_ok env (commands env.ctxTarget.name e) ⟨""⟩ (by
    intro i hi
    rw [hlen] at hi
    exact hok (i+1) (by omega) (by omega))
  unfold handle_tdump_command
  rw [hrw]
  refine ⟨?_, ?_, ?_, ?_⟩
  · rw [continueCalls_append, continueCalls_map_submit]
    simp [continueCalls]
  · rw [asyncCalls_append, asyncCalls_map_submit]
    simp [asyncCalls]
  · rw [sinkErrors_append, sinkErrors_map_submit]
    simp [sinkErrors]
  · rw [sinkStatuses_append, sinkStatuses_map_submit]
    simp [sinkStatuses]

/-- Witness for C3: on the all-success host every step succeeds and the
success path conclusions hold. -/
theorem tdump_success_path_witness :
    (∀ j, 1 ≤ j → j ≤ 4 →
      (resAfter envOk (commands envOk.ctxTarget.name "self.view") j).error = "") ∧
    continueCalls (handle_tdump_command envOk "self.view") =
      [envOk.selectedTarget.process] ∧
    asyncCalls (handle_tdump_command envOk "self.view") = [true] ∧
    sinkErrors (handle_tdump_command envOk "self.view") = [] ∧
    sinkStatuses (handle_tdump_command envOk "self.view") =
      [ReturnStatus.successContinuingNoResult] := by
  have hok : ∀ j, 1 ≤ j → j ≤ 4 →
      (resAfter envOk (commands envOk.ctxTarget.name "self.view") j).error = "" := by
    intro j hj1 hj4
    interval_cases j <;> rfl
  exact ⟨hok, tdump_success_path envOk "self.view" hok⟩

/-- C7: On a failing invocation (step k errors, the earlier steps having
succeeded) the handler performs no rollback and no further state changes:
the commands submitted before and at the failure remain exactly the
submitted prefix, async mode is never touched, no status is ever set, and
the single error assignment is the only write to the result sink. -/
theorem tdump_failure_frame (env : Env) (e : String) (k : Nat)
    (h1 : 1 ≤ k) (h4 : k ≤ 4)
    (hprev : ∀ j, 1 ≤ j → j < k →
      (resAfter env (commands env.ctxTarget.name e) j).error = "")
    (herr : (resAfter env (commands env.ctxTarget.name e) k).error ≠ "") :
    submittedCmds (handle_tdump_command env e) =
      (commands env.ctxTarget.name e).take k ∧
    asyncCalls (handle_tdump_command env e) = [] ∧
    sinkStatuses (handle_tdump_command env e) = [] ∧
    sinkErrors (handle_tdump_command env e) =
      [(resAfter env (commands env.ctxTarget.name e) k).error] ∧
    continueCalls (handle_tdump_command env e) = [] := by
  obtain ⟨k0, rfl⟩ : ∃ k0, k = k0 + 1 := ⟨k - 1, by omega⟩
  have hlen : (commands env.ctxTarget.name e).length = 4 := rfl
  have hrw := runCommands_first_err env (commands env.ctxTarget.name e) ⟨""⟩ k0
    (by omega) (fun i hi => hprev (i+1) (by omega) (by omega)) herr
  unfold handle_tdump_command
  rw [hrw]
  refine ⟨?_, ?_, ?_, ?_, ?_⟩
  · rw [submittedCmds_append, submittedCmds_map_submit, threadRes_keys]
    simp [submittedCmds]
  · rw [asyncCalls_append, asyncCalls_map_submit]
    simp [asyncCalls]
  · rw [sinkStatuses_append, sinkStatuses_map_submit]
    simp [sinkStatuses]
  · rw [sinkErrors_append, sinkErrors_map_submit]
    simp only [sinkErrors, List.nil_append, List.filterMap_cons, List.filterMap_nil]
    rfl
  · rw [continueCalls_append, continueCalls_map_submit]
    simp [continueCalls]

/-- Witness for C7: on the host failing exactly on the UIKit import
(k = 2) the already-submitted prefix has length two and the only sink
write is that error. -/
theorem tdump_failure_frame_witness :
    ((1:Nat) ≤ 2 ∧ (2:Nat) ≤ 4 ∧
     (resAfter envFailUIKit
       (commands envFailUIKit.ctxTarget.name "self.view.layer") 2).error ≠ "") ∧
    submittedCmds (handle_tdump_command envFailUIKit "self.view.layer") =
      (commands envFailUIKit.ctxTarget.name "self.view.layer").take 2 ∧
    asyncCalls (handle_tdump_command envFailUIKit "self.view.layer") = [] ∧
    sinkStatuses (handle_tdump_command envFailUIKit "self.view.layer") = [] ∧
    sinkErrors (handle_tdump_command envFailUIKit "self.view.layer") =
      [(resAfter envFailUIKit
         (commands envFailUIKit.ctxTarget.name "self.view.layer") 2).error] ∧
    continueCalls (handle_tdump_command envFailUIKit "self.view.layer") = [] :=
  ⟨⟨by omega, by omega, by decide⟩,
   tdump_failure_frame envFailUIKit "self.view.layer" 2 (by omega) (by omega)
     (by intro j hj1 hj2; interval_cases j; decide) (by decide)⟩

/-- C8: On the success path the process resumed is that of the
debugger's selected target queried at resume time, not one taken from the
invocation's execution context: even when the selected target differs
from the context's target, the selected target's process is continued. -/
theorem tdump_resumes_selected_target (env : Env) (e : String)
    (hok : ∀ j, 1 ≤ j → j ≤ 4 →
      (resAfter env (commands env.ctxTarget.name e) j).error = "")
    (_hdiff : env.selectedTarget ≠ env.ctxTarget) :
    continueCalls (handle_tdump_command env e) = [env.selectedTarget.process] := by
  have hlen : (commands env.ctxTarget.name e).length = 4 := rfl
  have hrw := runCommands_all_ok env (commands env.ctxTarget.name e) ⟨""⟩ (by
    intro i hi
    rw [hlen] at hi
    exact hok (i+1) (by omega) (by omega))
  unfold handle_tdump_command
  rw [hrw, continueCalls_append, continueCalls_map_submit]
  simp [continueCalls]

/-- Witness for C8: an all-success host whose selected target "Other"
differs from the context target "MyApp" resumes "Other"'s process. -/
theorem tdump_resumes_selected_target_witness :
    (∀ j, 1 ≤ j → j ≤ 4 →
      (resAfter envSwitched
        (commands envSwitched.ctxTarget.name "self.view") j).error = "") ∧
    envSwitched.selectedTarget ≠ envSwitched.ctxTarget ∧
    continueCalls (handle_tdump_command envSwitched "self.view") = ["proc-other"] := by
  have hok : ∀ j, 1 ≤ j → j ≤ 4 →
      (resAfter envSwitched
        (commands envSwitched.ctxTarget.name "self.view") j).error = "" := by
    intro j hj1 hj4
    interval_cases j <;> rfl
  exact ⟨hok, by decide,
    tdump_resumes_selected_target envSwitched "self.view" hok (by decide)⟩

theorem runCommands_continue_split (env : Env) (cmds : List String)
    (res : SBCommandReturnObject) (l₁ l₂ : List Event) (p : String)
    (h : runCommands env cmds res = l₁ ++ Event.processContinue p :: l₂) :
    ∃ l₀, l₁ = l₀ ++ [Event.resultSetStatus ReturnStatus.successContinuingNoResult,
                      Event.debuggerSetAsync true] ∧ l₂ = [] := by
  induction cmds generalizing res l₁ with
  | nil =>
    simp only [runCommands] at h
    rcases l₁ with _ | ⟨a, _ | ⟨b, _ | ⟨c, l⟩⟩⟩
    · simp at h
    · simp at h
    · simp only [List.cons_append, List.nil_append, List.cons.injEq] at h
      obtain ⟨ha, hb, _, hl⟩ := h
      subst ha hb hl
      exact ⟨[], rfl, rfl⟩
    · simp at h
  | cons c cs ih =>
    by_cases hc : (env.handleCmd c res).error = ""
    · simp only [runCommands, hc, ne_eq, not_true_eq_false, if_false] at h
      rcases l₁ with _ | ⟨a, l₁⟩
      · simp at h
      · simp only [List.cons_append, List.cons.injEq] at h
        obtain ⟨_, hrest⟩ := h
        obtain ⟨l₀, hl₀, hl₂⟩ := ih (env.handleCmd c res) l₁ hrest
        exact ⟨a :: l₀, by rw [hl₀]; rfl, hl₂⟩
    · rcases l₁ with _ | ⟨a, _ | ⟨b, l⟩⟩ <;> simp [runCommands, hc] at h

/-- C6: On the success path the handler sets the result status, then
enables asynchronous mode, and only then resumes the process: any
Continue event in a trace is the final event and is immediately preceded
by the status write and the SetAsync(true) call, so Continue is never
performed before SetAsync on any execution. -/
theorem tdump_async_before_continue (env : Env) (e : String)
    (l₁ l₂ : List Event) (p : String)
    (h : handle_tdump_command env e = l₁ ++ Event.processContinue p :: l₂) :
    ∃ l₀, l₁ = l₀ ++ [Event.resultSetStatus ReturnStatus.successContinuingNoResult,
                      Event.debuggerSetAsync true] ∧ l₂ = [] :=
  runCommands_continue_split env (commands env.ctxTarget.name e) ⟨""⟩ l₁ l₂ p h

/-- Witness for C6: the concrete all-success trace ends in
status-write, SetAsync(true), Continue, in that order. -/
theorem tdump_async_before_continue_witness :
    handle_tdump_command envOk "self.view" =
      [Event.submit "e -l swift -- import MyApp" ⟨""⟩,
       Event.submit "e -l swift -- import UIKit" ⟨""⟩,
       Event.submit "e -l swift -- TreeDumpDebugger.present(self.view)" ⟨""⟩,
       Event.submit "e -l swift -- CATransaction.flush()" ⟨""⟩,
       Event.resultSetStatus ReturnStatus.successContinuingNoResult,
       Event.debuggerSetAsync true] ++ Event.processContinue "proc-main" :: [] ∧
    ∃ l₀,
      [Event.submit "e -l swift -- import MyApp" (⟨""⟩ : SBCommandReturnObject),
       Event.submit "e -l swift -- import UIKit" ⟨""⟩,
       Event.submit "e -l swift -- TreeDumpDebugger.present(self.view)" ⟨""⟩,
       Event.submit "e -l swift -- CATransaction.flush()" ⟨""⟩,
       Event.resultSetStatus ReturnStatus.successContinuingNoResult,
       Event.debuggerSetAsync true] =
        l₀ ++ [Event.resultSetStatus ReturnStatus.successContinuingNoResult,
               Event.debuggerSetAsync true] ∧ ([] : List Event) = [] :=
  ⟨by decide,
   tdump_async_before_continue envOk "self.view" _ [] "proc-main" (by decide)⟩

theorem submittedWithRes_cons_submit (c : String) (r : SBCommandReturnObject)
    (tr : List Event) :
    submittedWithRes (Event.submit c r :: tr) = (c, r) :: submittedWithRes tr := rfl

theorem submittedCmds_cons_submit (c : String) (r : SBCommandReturnObject)
    (tr : List Event) :
    submittedCmds (Event.submit c r :: tr) = c :: submittedCmds tr := rfl

theorem sinkErrors_cons_submit (c : String) (r : SBCommandReturnObject)
    (tr : List Event) :
    sinkErrors (Event.submit c r :: tr) = sinkErrors tr := rfl

theorem runCommands_thread (env : Env) (cmds : List String)
    (res : SBCommandReturnObject) :
    submittedWithRes (runCommands env cmds res) =
      threadRes env (submittedCmds (runCommands env cmds res)) res ∧
    (sinkErrors (runCommands env cmds res) = [] ∨
     sinkErrors (runCommands env cmds res) =
       [((submittedCmds (runCommands env cmds res)).foldl
          (fun r c => env.handleCmd c r) res).error]) := by
  induction cmds generalizing res with
  | nil => exact ⟨rfl, Or.inl rfl⟩
  | cons c cs ih =>
    by_cases h : (env.handleCmd c res).error = ""
    · have hstep : runCommands env (c :: cs) res =
          Event.submit c res :: runCommands env cs (env.handleCmd c res) := by
        simp [runCommands, h]
      obtain ⟨ih1, ih2⟩ := ih (env.handleCmd c res)
      rw [hstep, submittedWithRes_cons_submit, submittedCmds_cons_submit,
        sinkErrors_cons_submit]
      constructor
      · rw [ih1]
        rfl
      · rcases ih2 with h2 | h2
        · exact Or.inl h2
        · exact Or.inr (by rw [h2, List.foldl_cons])
    · have hstep : runCommands env (c :: cs) res =
          [Event.submit c res, Event.resultSetError (env.handleCmd c res).error] := by
        simp [runCommands, h]
      rw [hstep]
      exact ⟨rfl, Or.inr rfl⟩

/-- C9: Exactly one command-return object is allocated per invocation
and threaded through every submission without being cleared: the state
passed at each submission is the fold of HandleCommand over the
previously submitted commands starting from the fresh object, and any
error written to the result sink is exactly the state that shared object
holds after the last submission. -/
theorem tdump_shared_return_object (env : Env) (e : String) :
    submittedWithRes (handle_tdump_command env e) =
      threadRes env (submittedCmds (handle_tdump_command env e)) ⟨""⟩ ∧
    (sinkErrors (handle_tdump_command env e) = [] ∨
     sinkErrors (handle_tdump_command env e) =
       [(resAfter env (commands env.ctxTarget.name e)
          (submittedCmds (handle_tdump_command env e)).length).error]) := by
  unfold handle_tdump_command
  obtain ⟨hthread, herr⟩ :=
    runCommands_thread env (commands env.ctxTarget.name e) ⟨""⟩
  refine ⟨hthread, ?_⟩
  rcases herr with h | h
  · exact Or.inl h
  · right
    rw [h]
    obtain ⟨n, hn, hs⟩ :=
      submittedCmds_runCommands env (commands env.ctxTarget.name e) ⟨""⟩
    have hlen : (commands env.ctxTarget.name e).length = 4 := rfl
    have htl : (submittedCmds
        (runCommands env (commands env.ctxTarget.name e) ⟨""⟩)).length = n := by
      rw [hs, List.length_take, hlen]
      omega
    rw [htl, hs]
    rfl
